import Mathlib

/-!
Shallow embedding of nipoppy/tabular/base.py: the BaseTabularModel row
schema (pydantic) and the BaseTabular dataframe operations (pandas),
with cells modelled as scalar values (string, integer, or a missing
value standing for both None and NaN).
-/

set_option autoImplicit false

namespace Nipoppy

/-- A scalar cell value: a string, an integer, or a missing value
(None/NaN are identified, as both satisfy pd.isna and both are written
back as null). -/
inductive Value where
  | vstr (s : String)
  | vint (n : Int)
  | vnone
  deriving DecidableEq, Repr

instance (ε α : Type) [DecidableEq ε] [DecidableEq α] : DecidableEq (Except ε α) := fun x y =>
  match x, y with
  | Except.ok a, Except.ok b =>
    if h : a = b then isTrue (congrArg Except.ok h)
    else isFalse (fun hh => h (Except.ok.inj hh))
  | Except.error a, Except.error b =>
    if h : a = b then isTrue (congrArg Except.error h)
    else isFalse (fun hh => h (Except.error.inj hh))
  | Except.ok _, Except.error _ => isFalse (fun hh => Except.noConfusion hh)
  | Except.error _, Except.ok _ => isFalse (fun hh => Except.noConfusion hh)

/-- pd.isna on a scalar cell: true exactly for the missing value.
All cells here are scalars, so the guard in the source that skips
non-string sequences is vacuously satisfied. -/
def pdIsna : Value → Bool
  | Value.vnone => true
  | _ => false

/-- A row (or a raw record): a Python dict from field name to value,
modelled as an association list with unique keys. -/
abbrev Row : Type := List (String × Value)

/-- Reading a cell of a dataframe row; a column the row does not carry
reads as missing (pandas fills absent cells with NaN). -/
def cell (r : Row) (c : String) : Value := (List.lookup c r).getD Value.vnone

/-- Python dict lookup, returning none when the key is absent. -/
def dget (r : Row) (c : String) : Option Value := List.lookup c r

/-- Python dict assignment d[c] = v: overwrite the existing entry or
append a new one. -/
def setCell (r : Row) (c : String) (v : Value) : Row :=
  if (List.lookup c r).isSome then
    r.map (fun kv => if kv.1 = c then (c, v) else kv)
  else
    r ++ [(c, v)]

/-- An index label: the tuple of index-level values.  A RangeIndex
label i is the one-element tuple holding the integer i. -/
abbrev Lbl : Type := List Value

/-- A pandas DataFrame: an ordered list of column names and an ordered
list of labelled rows. -/
structure Frame where
  cols : List String
  rows : List (Lbl × Row)
  deriving DecidableEq, Repr

/-- Fresh RangeIndex labels i, i+1, ... attached to a list of rows. -/
def relabelAux (i : Nat) : List Row → List (Lbl × Row)
  | [] => []
  | r :: rs => ([Value.vint (Int.ofNat i)], r) :: relabelAux (i + 1) rs

/-- Fresh RangeIndex labels 0, 1, ... attached to a list of rows
(pandas ignore_index / RangeIndex construction). -/
def relabel (rs : List Row) : List (Lbl × Row) := relabelAux 0 rs

/-- DataFrame.to_dict(orient="records"): one dict per row, keyed by the
column names in column order; index labels are dropped. -/
def toRecords (f : Frame) : List Row :=
  f.rows.map (fun lr => f.cols.map (fun c => (c, cell lr.2 c)))

/-! ## The row schema (BaseTabularModel / pydantic) -/

/-- One pydantic field declaration: its name, whether it is required,
the default applied when an optional field is absent, and the
field-level type check / coercion. -/
structure FieldSpec where
  name : String
  required : Bool
  default : Value
  check : Value → Except String Value

/-- A row schema: the ordered field declarations of a BaseTabularModel
subclass. -/
abbrev Model : Type := List FieldSpec

/-- The names of the optional (not required) fields of a model. -/
def optional_fields (m : Model) : List String :=
  (m.filter (fun s => !s.required)).map (fun s => s.name)

/-- The keys collected for removal by validate_before: present keys
whose value is missing and which name an optional field. -/
def keys_to_remove (m : Model) (data : Row) : List String :=
  (data.filter (fun kv => pdIsna kv.2 && (optional_fields m).contains kv.1)).map
    (fun kv => kv.1)

/-- BaseTabularModel.validate_before on a dict: optional fields whose
present value is missing are removed (so the default applies); any
other present missing value is replaced by None. Keys absent from the
dict are not touched. The subclass hook is the identity in the base
class. -/
def validate_before (m : Model) (data : Row) : Row :=
  (data.map (fun kv =>
    (kv.1,
      if pdIsna kv.2 && !(optional_fields m).contains kv.1 then Value.vnone
      else kv.2))).filter
    (fun kv => !(keys_to_remove m data).contains kv.1)

/-- The pydantic per-field outcome after the before-hook: an absent
required field is a missing-field error, an absent optional field gets
its default, a present field goes through the declared check. -/
def fieldResult (data : Row) (s : FieldSpec) : Except String Value :=
  match dget data s.name with
  | none => if s.required then Except.error "missing" else Except.ok s.default
  | some v => s.check v

/-- The field errors pydantic collects for one row: one entry per
declared field whose field result fails, in declaration order. -/
def field_errors (m : Model) (data : Row) : List (String × String) :=
  m.filterMap (fun s =>
    match fieldResult data s with
    | Except.error e => some (s.name, e)
    | Except.ok _ => none)

/-- Pydantic field validation of one row: every field error is
collected (no fail-fast across fields); on success the dump carries
every declared field in declaration order. -/
def validateFields (m : Model) (data : Row) : Except (List (String × String)) Row :=
  if (field_errors m data).isEmpty then
    Except.ok (m.filterMap (fun s =>
      match fieldResult data s with
      | Except.ok v => some (s.name, v)
      | Except.error _ => none))
  else
    Except.error (field_errors m data)

/-- self.model(**record).model_dump(): the before-hook followed by
field validation. -/
def validate_row (m : Model) (data : Row) : Except (List (String × String)) Row :=
  validateFields m (validate_before m data)

/-- The list comprehension building one model per record: it aborts at
the first record whose validation raises, so only that record's
(field-aggregated) errors surface. -/
def validateRows (m : Model) : List Row → Except (List (String × String)) (List Row)
  | [] => Except.ok []
  | r :: rs =>
    match validate_row m r with
    | Except.error e => Except.error e
    | Except.ok v =>
      match validateRows m rs with
      | Except.error e => Except.error e
      | Except.ok vs => Except.ok (v :: vs)

/-- Constructing a dataframe from a list of record dicts: columns are
the schema fields (every validated record carries all of them, in
declaration order) and rows get a fresh RangeIndex. -/
def frameOfRecords (m : Model) (rs : List Row) : Frame :=
  { cols := m.map (fun s => s.name), rows := relabel rs }

/-! ## BaseTabular operations -/

/-- Construction of an empty tabular object: columns are pre-populated
from the model fields (BaseTabular.__init__ when empty with no
columns). -/
def emptyFrame (m : Model) : Frame := { cols := m.map (fun s => s.name), rows := [] }

/-- Projection equality of two rows on a column list (equality of the
key tuples built from those columns). -/
def projEq (cols : List String) (r1 r2 : Row) : Bool :=
  cols.all (fun c => cell r1 c == cell r2 c)

/-- BaseTabular.find_duplicates: the rows whose projection on the given
columns occurs in at least two rows of the frame
(DataFrame.duplicated with keep=False keeps every member of each
duplicate group). -/
def find_duplicates (f : Frame) (cols : List String) : Frame :=
  { cols := f.cols,
    rows := f.rows.filter (fun lr =>
      2 ≤ f.rows.countP (fun lr2 => projEq cols lr.2 lr2.2)) }

/-- Errors raised by BaseTabular.validate: the dataset-named wrapper of
the first failing row's field errors, or the duplicate-key error
carrying the frame of duplicated rows. -/
inductive VErr where
  | validation (name : String) (errs : List (String × String))
  | duplicate (name : String) (dups : Frame)
  deriving DecidableEq

/-- BaseTabular.validate: build one model per record (aborting at the
first failing row), rebuild the frame from the validated dumps, then
fail if any index-key projection repeats. -/
def validate (m : Model) (index_cols : List String) (name : String) (f : Frame) :
    Except VErr Frame :=
  match validateRows m (toRecords f) with
  | Except.error e => Except.error (VErr.validation name e)
  | Except.ok vrows =>
    let df_validated := frameOfRecords m vrows
    let df_duplicated := find_duplicates df_validated index_cols
    if df_duplicated.rows.length > 0 then
      Except.error (VErr.duplicate name df_duplicated)
    else
      Except.ok df_validated

/-- State-passing form of validate: the pair of the receiver's state
after the call and the returned result. The method only reads the
receiver, so the state component is the receiver itself. -/
def validateSt (m : Model) (index_cols : List String) (name : String) (f : Frame) :
    Frame × Except VErr Frame :=
  (f, validate m index_cols name f)

/-- Errors raised by BaseTabular.get_diff: a ValueError naming the
columns absent from one of the two frames, or the IndexError pandas
raises when the boolean mask built from an empty column list is
shorter than the frame. -/
inductive DiffErr where
  | missingColumns (cols : List String)
  | indexLengthMismatch
  deriving DecidableEq, Repr

/-- BaseTabular.get_diff: the rows of self whose projection on the
given columns occurs nowhere in other, after checking that both frames
carry all of those columns. -/
def get_diff (self other : Frame) (cols : List String) : Except DiffErr Frame :=
  if (cols.filter (fun c => !self.cols.contains c)) ≠ [] then
    Except.error (DiffErr.missingColumns (cols.filter (fun c => !self.cols.contains c)))
  else if (cols.filter (fun c => !other.cols.contains c)) ≠ [] then
    Except.error (DiffErr.missingColumns (cols.filter (fun c => !other.cols.contains c)))
  else if cols.isEmpty && !self.rows.isEmpty then
    Except.error DiffErr.indexLengthMismatch
  else
    Except.ok { cols := self.cols,
                rows := self.rows.filter (fun lr =>
                  !other.rows.any (fun lr2 => projEq cols lr.2 lr2.2)) }

/-- BaseTabular.equals via pd.testing.assert_frame_equal with
check_like=True: the column multisets and the index label multisets
must coincide, and the two rows at each index label must agree on
every column (rows are matched by label, not by position). Labels are
assumed unique, as produced by a range index. -/
def equals (self other : Frame) : Bool :=
  decide (self.cols.Perm other.cols) &&
  decide ((self.rows.map Prod.fst).Perm (other.rows.map Prod.fst)) &&
  self.rows.all (fun lr =>
    match other.rows.find? (fun lr2 => lr2.1 == lr.1) with
    | some lr2 => self.cols.all (fun c => cell lr.2 c == cell lr2.2 c)
    | none => false)

/-- pd.concat([self, other], ignore_index=True): columns aligned by
name (the receiver's columns first, then the other frame's new ones),
rows of self followed by rows of other under a fresh range index;
cells a row does not carry read as missing. -/
def concatFrames (self other : Frame) : Frame :=
  { cols := self.cols ++ other.cols.filter (fun c => !self.cols.contains c),
    rows := relabel (self.rows.map Prod.snd ++ other.rows.map Prod.snd) }

/-- BaseTabular.concatenate in state-passing form: the pair of the
receiver's state after the call and the returned result. The method
builds a fresh concatenated frame (optionally validated) and never
writes to the receiver. -/
def concatenate (m : Model) (index_cols : List String) (name : String)
    (self other : Frame) (doValidate : Bool) : Frame × Except VErr Frame :=
  let concatenated := concatFrames self other
  (self, if doValidate then validate m index_cols name concatenated else Except.ok concatenated)

/-! ## add_or_update_records: temporary key index, upsert loop, reset -/

/-- An arbitrary fixed rank used to order values of different types;
the key tuples sorted by the source are homogeneous, where only the
within-type orders below matter. -/
def Value.rank : Value → Nat
  | Value.vint _ => 0
  | Value.vstr _ => 1
  | Value.vnone => 2

/-- Ordering of two scalar values, integers by the integer order and
strings by the lexicographic string order. -/
def Value.leb : Value → Value → Bool
  | Value.vint a, Value.vint b => decide (a ≤ b)
  | Value.vstr a, Value.vstr b => decide (a ≤ b)
  | a, b => decide (Value.rank a ≤ Value.rank b)

/-- Lexicographic ordering of index labels (key tuples). -/
def lblLeb : Lbl → Lbl → Bool
  | [], _ => true
  | _ :: _, [] => false
  | a :: as, b :: bs => if a = b then lblLeb as bs else Value.leb a b

/-- DataFrame.sort_index: stable sort of the rows by their label. -/
def sortRows (rows : List (Lbl × Row)) : List (Lbl × Row) :=
  List.insertionSort (fun x y => lblLeb x.1 y.1 = true) rows

/-- DataFrame.set_index(index_cols): the key columns move out of the
column list and each row's label becomes its key tuple; the previous
range index is dropped. -/
def setIndexF (f : Frame) (index_cols : List String) : Frame :=
  { cols := f.cols.filter (fun c => !index_cols.contains c),
    rows := f.rows.map (fun lr => (index_cols.map (fun c => cell lr.2 c), lr.2)) }

/-- DataFrame.reset_index: the index levels come back as ordinary
columns inserted at the front, and the rows get a fresh range index in
their current order. -/
def resetIndexF (index_cols : List String) (f : Frame) : Frame :=
  { cols := index_cols ++ f.cols,
    rows := relabel (f.rows.map (fun lr => index_cols.zip lr.1 ++ lr.2)) }

/-- self.loc[idx, c] = v on a key-indexed frame: set column c of every
row labelled idx, or append a new row (enlargement) whose other cells
are missing when no row carries that label. -/
def locSetCell (rows : List (Lbl × Row)) (idx : Lbl) (c : String) (v : Value) :
    List (Lbl × Row) :=
  if rows.any (fun lr => lr.1 == idx) then
    rows.map (fun lr => if lr.1 = idx then (lr.1, setCell lr.2 c v) else lr)
  else
    rows ++ [(idx, [(c, v)])]

/-- Errors escaping the upsert loop: a pydantic validation error on one
record, or the KeyError raised when a processed record lacks a column
the loop reads. -/
inductive UpsertErr where
  | validation (errs : List (String × String))
  | keyError
  deriving DecidableEq, Repr

/-- The inner column loop of add_or_update_records for one processed
record: before each assignment the frame is sorted by its key index,
then the cell at the record's key tuple is written (or a new row is
created). A record lacking a needed key raises at that point, with the
frame state kept for the finally clause. -/
def colLoop (index_cols : List String) (record : Row) :
    List String → List (Lbl × Row) → List (Lbl × Row) × Option UpsertErr
  | [], rows => (rows, none)
  | c :: cs, rows =>
    let sorted := sortRows rows
    match List.mapM (fun k => dget record k) index_cols with
    | none => (sorted, some UpsertErr.keyError)
    | some idx =>
      match dget record c with
      | none => (sorted, some UpsertErr.keyError)
      | some v => colLoop index_cols record cs (locSetCell sorted idx c v)

/-- The outer record loop of add_or_update_records: each record is
(optionally) validated through the model, then written column by
column. The loop aborts at the first error, keeping the frame state
reached so far. -/
def recLoop (m : Model) (index_cols non_index_cols : List String) (doValidate : Bool) :
    List Row → List (Lbl × Row) → List (Lbl × Row) × Option UpsertErr
  | [], rows => (rows, none)
  | rcd :: rcds, rows =>
    match (if doValidate then validate_row m rcd else Except.ok rcd) with
    | Except.error e => (rows, some (UpsertErr.validation e))
    | Except.ok record =>
      match colLoop index_cols record non_index_cols rows with
      | (rows2, some e) => (rows2, some e)
      | (rows2, none) => recLoop m index_cols non_index_cols doValidate rcds rows2

/-- BaseTabular.add_or_update_records in state-passing form: the pair
of the receiver's final state and the error, if any. The non-index
columns are computed first, the frame is re-keyed by the index
columns, the records are upserted, and the finally clause resets the
index on success and failure alike. When an index column is absent,
set_index raises before the try block and the frame is untouched. -/
def add_or_update_records (m : Model) (index_cols : List String) (self : Frame)
    (records : List Row) (doValidate : Bool) : Frame × Option UpsertErr :=
  if (index_cols.filter (fun c => !self.cols.contains c)) ≠ [] then
    (self, some UpsertErr.keyError)
  else
    let non_index_cols := self.cols.filter (fun c => !index_cols.contains c)
    let indexed := setIndexF self index_cols
    let step := recLoop m index_cols non_index_cols doValidate records indexed.rows
    (resetIndexF index_cols { cols := indexed.cols, rows := step.1 }, step.2)

/-! ## load: separator heuristic -/

/-- Python str.split(sep): the pieces of the character list between
occurrences of the separator (an empty input gives one empty piece). -/
def pySplit (sep : Char) : List Char → List (List Char)
  | [] => [[]]
  | c :: cs =>
    match pySplit sep cs with
    | [] => [[]]
    | r :: rs => if c = sep then [] :: r :: rs else (c :: r) :: rs

/-- Errors raised by BaseTabular.load after parsing: the heuristic
wrong-separator rejection, or a validation failure. -/
inductive LoadErr where
  | csvSuspected
  | validation (e : VErr)
  deriving DecidableEq

/-- BaseTabular.load on the frame produced by pd.read_csv (the reading
itself is the external all-text tab-separated parse): reject a
single-column parse whose header splits on a comma into more than one
piece, then optionally validate. -/
def load (m : Model) (index_cols : List String) (name : String) (parsed : Frame)
    (doValidate : Bool) : Except LoadErr Frame :=
  if parsed.cols.length = 1 ∧ 1 < (pySplit ',' (parsed.cols.headD "").data).length then
    Except.error LoadErr.csvSuspected
  else if doValidate then
    match validate m index_cols name parsed with
    | Except.ok g => Except.ok g
    | Except.error e => Except.error (LoadErr.validation e)
  else
    Except.ok parsed

/-! ## A concrete schema and concrete frames used as test inputs -/

/-- Accumulating decimal parse of a character list; fails at the first
non-digit. -/
def digitsToNat (acc : Nat) : List Char → Option Nat
  | [] => some acc
  | c :: cs =>
    if '0' ≤ c ∧ c ≤ '9' then digitsToNat (acc * 10 + (c.toNat - '0'.toNat)) cs
    else none

/-- Python int(str) on a trimmed decimal literal with optional leading
minus sign. -/
def strToInt (s : String) : Option Int :=
  match s.data with
  | [] => none
  | '-' :: rest =>
    match rest with
    | [] => none
    | _ => (digitsToNat 0 rest).map (fun n => -(n : Int))
  | l => (digitsToNat 0 l).map (fun n => (n : Int))

/-- Pydantic coercion for a required int field: accept integers, parse
integer-shaped strings, reject a null. -/
def intCheck : Value → Except String Value
  | Value.vint n => Except.ok (Value.vint n)
  | Value.vstr s =>
    match strToInt s with
    | some n => Except.ok (Value.vint n)
    | none => Except.error "int_parsing"
  | Value.vnone => Except.error "int_type"

/-- Pydantic coercion for an Optional[str] field: accept strings and
null, reject integers. -/
def optStrCheck : Value → Except String Value
  | Value.vstr s => Except.ok (Value.vstr s)
  | Value.vnone => Except.ok Value.vnone
  | Value.vint _ => Except.error "str_type"

/-- A schema with a required int field id and optional str fields name
and value defaulting to null, with index key id. -/
def demoSchema : Model :=
  [ { name := "id", required := true, default := Value.vnone, check := intCheck },
    { name := "name", required := false, default := Value.vnone, check := optStrCheck },
    { name := "value", required := false, default := Value.vnone, check := optStrCheck } ]

/-- A row with id 1, name A, value the string 10. -/
def rowA : Row := [("id", Value.vint 1), ("name", Value.vstr "A"), ("value", Value.vstr "10")]

/-- A one-row dataset holding rowA under a range index. -/
def d1 : Frame := { cols := ["id", "name", "value"], rows := [([Value.vint 0], rowA)] }

/-- An upsert record supplying only the key and the name. -/
def recX : Row := [("id", Value.vint 1), ("name", Value.vstr "X")]

/-- A row with id 2. -/
def row2 : Row := [("id", Value.vint 2), ("name", Value.vstr "B"), ("value", Value.vstr "20")]

/-- A row with id 1. -/
def row1 : Row := [("id", Value.vint 1), ("name", Value.vstr "A"), ("value", Value.vstr "10")]

/-- A two-row dataset whose rows are NOT in key order: id 2 first. -/
def d2 : Frame :=
  { cols := ["id", "name", "value"],
    rows := [([Value.vint 0], row2), ([Value.vint 1], row1)] }

/-- An upsert record targeting the existing key 1. -/
def recZ : Row := [("id", Value.vint 1), ("name", Value.vstr "Z")]

/-- A row failing validation on the required id field (null id). -/
def badRow0 : Row := [("id", Value.vnone), ("name", Value.vstr "A"), ("value", Value.vstr "1")]

/-- A row failing validation on the name field (integer where a string
is expected), with a valid id. -/
def badRow1 : Row := [("id", Value.vint 1), ("name", Value.vint 5), ("value", Value.vnone)]

/-- A dataset with two rows that fail validation on different fields. -/
def dBad : Frame :=
  { cols := ["id", "name", "value"],
    rows := [([Value.vint 0], badRow0), ([Value.vint 1], badRow1)] }

/-- First member of a duplicate-key pair (id 1). -/
def dupA : Row := [("id", Value.vint 1), ("name", Value.vstr "A"), ("value", Value.vstr "1")]

/-- Second member of a duplicate-key pair (id 1 again). -/
def dupB : Row := [("id", Value.vint 1), ("name", Value.vstr "B"), ("value", Value.vstr "2")]

/-- A dataset whose two valid rows share the index key id 1. -/
def dDup : Frame :=
  { cols := ["id", "name", "value"],
    rows := [([Value.vint 0], dupA), ([Value.vint 1], dupB)] }

/-- A two-row frame with rows id 1 then id 2 under a fresh range index. -/
def dA : Frame :=
  { cols := ["id", "name"],
    rows := [([Value.vint 0], [("id", Value.vint 1), ("name", Value.vstr "A")]),
             ([Value.vint 1], [("id", Value.vint 2), ("name", Value.vstr "B")])] }

/-- The same two rows as dA in the opposite order, again under a fresh
range index. -/
def dB : Frame :=
  { cols := ["id", "name"],
    rows := [([Value.vint 0], [("id", Value.vint 2), ("name", Value.vstr "B")]),
             ([Value.vint 1], [("id", Value.vint 1), ("name", Value.vstr "A")])] }

/-- A one-row dataset holding the id-1 row. -/
def dC : Frame := { cols := ["id", "name", "value"], rows := [([Value.vint 0], dupA)] }

/-- A one-row dataset holding the id-2 row. -/
def dD : Frame := { cols := ["id", "name", "value"], rows := [([Value.vint 0], row2)] }

/-- A row whose id is the string 7, coerced to the integer 7 by
validation. -/
def rowOkStr : Row := [("id", Value.vstr "7"), ("name", Value.vstr "N"), ("value", Value.vnone)]

/-- A dataset that validates successfully but whose validated form
differs from it (string id coerced to int). -/
def dStr : Frame := { cols := ["id", "name", "value"], rows := [([Value.vint 0], rowOkStr)] }

/-- The validated form of dStr. -/
def gStr : Frame :=
  { cols := ["id", "name", "value"],
    rows := [([Value.vint 0],
              [("id", Value.vint 7), ("name", Value.vstr "N"), ("value", Value.vnone)])] }

/-!
## Shared helper lemmas
-/

theorem relabelAux_map_snd (i : Nat) (rs : List Row) : (relabelAux i rs).map Prod.snd = rs := by
  induction rs generalizing i with
  | nil => rfl
  | cons r rs ih => simp [relabelAux, ih]

theorem relabelAux_map_fst (i : Nat) (rs : List Row) :
    (relabelAux i rs).map Prod.fst =
      (List.range' i rs.length).map (fun j => [Value.vint (Int.ofNat j)]) := by
  induction rs generalizing i with
  | nil => rfl
  | cons r rs ih => simp [relabelAux, ih, List.range'_succ]

theorem relabel_map_snd (rs : List Row) : (relabel rs).map Prod.snd = rs :=
  relabelAux_map_snd 0 rs

theorem relabel_map_fst (rs : List Row) :
    (relabel rs).map Prod.fst =
      (List.range rs.length).map (fun j => [Value.vint (Int.ofNat j)]) := by
  rw [relabel, relabelAux_map_fst, List.range_eq_range']

theorem relabel_length (rs : List Row) : (relabel rs).length = rs.length := by
  have h := congrArg List.length (relabel_map_snd rs)
  simpa using h

theorem relabel_labels_nodup (rs : List Row) : ((relabel rs).map Prod.fst).Nodup := by
  rw [relabel_map_fst]
  refine List.Nodup.map ?_ (List.nodup_range _)
  intro a b h
  simpa using h

theorem projEq_refl (cols : List String) (r : Row) : projEq cols r r = true := by
  simp [projEq]

theorem pySplit_ne_nil (sep : Char) (l : List Char) : pySplit sep l ≠ [] := by
  cases l with
  | nil => simp [pySplit]
  | cons c cs =>
    simp only [pySplit]
    cases h : pySplit sep cs with
    | nil => simp
    | cons r rs =>
      by_cases hc : c = sep <;> simp [hc]

theorem pySplit_length (sep : Char) (l : List Char) :
    (pySplit sep l).length = l.count sep + 1 := by
  induction l with
  | nil => simp [pySplit]
  | cons c cs ih =>
    simp only [pySplit]
    cases h : pySplit sep cs with
    | nil => exact absurd h (pySplit_ne_nil sep cs)
    | cons r rs =>
      rw [h] at ih
      by_cases hc : c = sep
      · subst hc
        simp [List.count_cons, ih]
      · have h2 : rs.length + 1 = List.count sep cs + 1 := by simpa using ih
        simp [List.count_cons, hc, Ne.symm hc]
        omega

theorem lookup_filter_key (Q : String → Bool) (l : Row) (k : String) :
    List.lookup k (l.filter (fun kv => Q kv.1)) = if Q k then List.lookup k l else none := by
  induction l with
  | nil => cases hq : Q k <;> simp [List.lookup, hq]
  | cons kv l ih =>
    obtain ⟨k1, v1⟩ := kv
    by_cases hk : k = k1
    · subst hk
      cases hq : Q k <;> simp [List.filter_cons, List.lookup, hq, ih]
    · have hbeq : (k == k1) = false := by
        simpa using hk
      cases hq : Q k1 <;> cases hq2 : Q k <;>
        simp [List.filter_cons, List.lookup, hq, hq2, hbeq, ih]

theorem lookup_map_entry (g : String → Value → Value) (l : Row) (k : String) :
    List.lookup k (l.map (fun kv => (kv.1, g kv.1 kv.2))) = (List.lookup k l).map (g k) := by
  induction l with
  | nil => rfl
  | cons kv l ih =>
    obtain ⟨k1, v1⟩ := kv
    by_cases hk : k = k1
    · subst hk
      simp [List.lookup]
    · have hbeq : (k == k1) = false := by
        simpa using hk
      simp [List.lookup, hbeq, ih]

theorem mem_of_lookup (l : Row) (k : String) (v : Value)
    (h : List.lookup k l = some v) : (k, v) ∈ l := by
  induction l with
  | nil => simp [List.lookup] at h
  | cons kv l ih =>
    obtain ⟨k1, v1⟩ := kv
    by_cases hk : k = k1
    · subst hk
      simp [List.lookup] at h
      simp [h]
    · have hbeq : (k == k1) = false := by
        simpa using hk
      simp [List.lookup, hbeq] at h
      exact List.mem_cons_of_mem _ (ih h)

theorem lookup_eq_of_mem_nodup (l : Row) (k : String) (v : Value)
    (hnd : (l.map Prod.fst).Nodup) (hm : (k, v) ∈ l) : List.lookup k l = some v := by
  induction l with
  | nil => simp at hm
  | cons kv l ih =>
    obtain ⟨k1, v1⟩ := kv
    simp only [List.map_cons, List.nodup_cons] at hnd
    rcases List.mem_cons.mp hm with h | h
    · have hk : k = k1 := congrArg Prod.fst h
      have hv : v = v1 := congrArg Prod.snd h
      subst hk
      subst hv
      simp [List.lookup]
    · have hk1 : k ≠ k1 := by
        intro he
        subst he
        exact hnd.1 (List.mem_map.mpr ⟨(k, v), h, rfl⟩)
      have hbeq : (k == k1) = false := by
        simpa using hk1
      simp only [List.lookup, hbeq]
      exact ih hnd.2 h

theorem lookup_eq_none_iff (l : Row) (k : String) :
    List.lookup k l = none ↔ ∀ kv ∈ l, kv.1 ≠ k := by
  induction l with
  | nil => simp [List.lookup]
  | cons kv l ih =>
    obtain ⟨k1, v1⟩ := kv
    by_cases hk : k = k1
    · subst hk
      simp [List.lookup]
    · have hbeq : (k == k1) = false := by
        simpa using hk
      simp only [List.lookup, hbeq]
      simp [ih, Ne.symm hk]

theorem contains_iff (l : List String) (a : String) : l.contains a = true ↔ a ∈ l :=
  List.elem_iff

theorem validate_before_lookup (m : Model) (data : Row) (k : String)
    (hnd : (data.map Prod.fst).Nodup) :
    dget (validate_before m data) k =
      match List.lookup k data with
      | none => none
      | some v =>
        if pdIsna v then
          if (optional_fields m).contains k then none else some Value.vnone
        else some v := by
  have h2 := lookup_map_entry
    (fun (x : String) (v : Value) =>
      if pdIsna v && !(optional_fields m).contains x then Value.vnone else v) data k
  have h1 : dget (validate_before m data) k =
      if !(keys_to_remove m data).contains k then
        (List.lookup k data).map ((fun (x : String) (v : Value) =>
          if pdIsna v && !(optional_fields m).contains x then Value.vnone else v) k)
      else none := by
    have h0 := lookup_filter_key
      (fun x => !(keys_to_remove m data).contains x)
      (data.map (fun kv =>
        (kv.1, (fun (x : String) (v : Value) =>
          if pdIsna v && !(optional_fields m).contains x then Value.vnone else v) kv.1 kv.2)))
      k
    rw [h2] at h0
    exact h0
  rw [h1]
  cases hL : List.lookup k data with
  | none =>
    cases hc : (keys_to_remove m data).contains k <;> simp
  | some v =>
    have hmem : (k, v) ∈ data := mem_of_lookup _ _ _ hL
    have huniq : ∀ kv, kv ∈ data → kv.1 = k → kv.2 = v := by
      intro kv hkv hk1
      have h2 : List.lookup k data = some kv.2 := by
        apply lookup_eq_of_mem_nodup _ _ _ hnd
        rw [← hk1]
        exact hkv
      rw [hL] at h2
      exact (Option.some.inj h2).symm
    have hktr : (keys_to_remove m data).contains k =
        (pdIsna v && (optional_fields m).contains k) := by
      by_cases hin : (pdIsna v && (optional_fields m).contains k) = true
      · rw [hin]
        rw [contains_iff]
        exact List.mem_map.mpr ⟨(k, v), List.mem_filter.mpr ⟨hmem, hin⟩, rfl⟩
      · rw [eq_false_of_ne_true hin]
        rw [← Bool.not_eq_true]
        rw [contains_iff]
        intro hk
        rcases List.mem_map.mp hk with ⟨kv, hkvf, hk1⟩
        rcases List.mem_filter.mp hkvf with ⟨hkvd, hp⟩
        have h2 := huniq kv hkvd hk1
        rw [h2, hk1] at hp
        exact hin hp
    rw [hktr]
    cases hiv : pdIsna v
    · simp [hiv]
    · cases hoc : (optional_fields m).contains k
      · have hoc2 : k ∉ optional_fields m := by
          rw [← contains_iff, hoc]
          simp
        simp [hiv, hoc, hoc2]
      · have hoc2 : k ∈ optional_fields m := by
          rw [← contains_iff]
          exact hoc
        simp [hiv, hoc, hoc2]

theorem validateRows_error (m : Model) (rs : List Row) (e : List (String × String))
    (h : validateRows m rs = Except.error e) :
    ∃ pre r post, rs = pre ++ r :: post ∧
      (∀ r2, r2 ∈ pre → ∃ v, validate_row m r2 = Except.ok v) ∧
      validate_row m r = Except.error e := by
  induction rs with
  | nil => simp [validateRows] at h
  | cons r rs ih =>
    cases hv : validate_row m r with
    | error e2 =>
      simp only [validateRows, hv] at h
      have he : e2 = e := Except.error.inj h
      exact ⟨[], r, rs, by simp, by simp, by rw [hv, he]⟩
    | ok v =>
      cases hrest : validateRows m rs with
      | error e2 =>
        simp only [validateRows, hv, hrest] at h
        have he : e2 = e := Except.error.inj h
        rcases ih (by rw [hrest, he]) with ⟨pre, r0, post, h1, h2, h3⟩
        refine ⟨r :: pre, r0, post, by simp [h1], ?_, h3⟩
        intro r2 hr2
        rcases List.mem_cons.mp hr2 with h4 | h4
        · exact ⟨v, by rw [h4, hv]⟩
        · exact h2 r2 h4
      | ok vs =>
        simp only [validateRows, hv, hrest] at h
        exact Except.noConfusion h

theorem validate_row_error_mem (m : Model) (r : Row) (e : List (String × String))
    (h : validate_row m r = Except.error e) (s : FieldSpec) (msg : String)
    (hs : s ∈ m) (hfr : fieldResult (validate_before m r) s = Except.error msg) :
    (s.name, msg) ∈ e := by
  unfold validate_row validateFields at h
  cases hie : (field_errors m (validate_before m r)).isEmpty
  · rw [hie] at h
    simp only [Bool.false_eq_true, if_false] at h
    have he : field_errors m (validate_before m r) = e := Except.error.inj h
    rw [← he]
    exact List.mem_filterMap.mpr ⟨s, hs, by rw [hfr]⟩
  · rw [hie] at h
    simp at h

/-!
## Theorems

First the claim counterexamples that evaluate the operations on the
concrete inputs above, then the general theorems.
-/

/-- C1: the claim is false on the code. In the one-row dataset holding
id 1, name A, value "10", upserting the record with id 1 and name X
under default validation leaves value as null (the schema default
filled in by model validation and then written over the old cell), not
as the previous "10". -/
theorem c1_counterexample :
    (add_or_update_records demoSchema ["id"] d1 [recX] true).2 = none ∧
    (add_or_update_records demoSchema ["id"] d1 [recX] true).1.rows.length = 1 ∧
    ((add_or_update_records demoSchema ["id"] d1 [recX] true).1.rows.map
      (fun lr => cell lr.2 "value")) = [Value.vnone] ∧
    Value.vnone ≠ Value.vstr "10" := by decide

/-- C1 amended: add_or_update_records on the one-row dataset with the
record supplying id 1 and name X succeeds, keeps the row count at 1,
updates name to X, and overwrites the unsupplied non-key field value
with the schema default null rather than keeping its previous value. -/
theorem c1_amended_upsert :
    (add_or_update_records demoSchema ["id"] d1 [recX] true).2 = none ∧
    (add_or_update_records demoSchema ["id"] d1 [recX] true).1.rows.length = 1 ∧
    ((add_or_update_records demoSchema ["id"] d1 [recX] true).1.rows.map
      (fun lr => (cell lr.2 "id", cell lr.2 "name", cell lr.2 "value"))) =
      [(Value.vint 1, Value.vstr "X", Value.vnone)] := by decide

/-- C2: the claim is false on the code. In the dataset dBad both rows
fail validation (the first on id, the second on name), yet the raised
error carries only the first row's field errors: the second row's
str_type failure on name is absent from the reported list. -/
theorem c2_counterexample :
    validate demoSchema ["id"] "base tabular" dBad =
      Except.error (VErr.validation "base tabular" [("id", "int_type")]) ∧
    validate_row demoSchema (List.getD (toRecords dBad) 1 []) =
      Except.error [("name", "str_type")] ∧
    ¬ (("name", "str_type") ∈ [(("id" : String), ("int_type" : String))]) := by decide

/-- C3: the claim is false on the code. The frames dA and dB hold the
same rows (their row lists are permutations of each other) with equal
column lists, but equals returns false because rows are matched by
index label and both frames carry fresh positional labels. -/
theorem c3_counterexample :
    equals dA dB = false ∧
    dA.cols = dB.cols ∧
    (dA.rows.map Prod.snd).Perm (dB.rows.map Prod.snd) := by
  refine ⟨by decide, by decide, by decide⟩

/-- C5: the claim is false on the code. With the schema whose id field
is required, normalizing the raw row that only carries name leaves the
absent required field id absent: it is not set explicitly to a null
value. -/
theorem c5_counterexample :
    validate_before demoSchema [("name", Value.vstr "X")] = [("name", Value.vstr "X")] ∧
    dget (validate_before demoSchema [("name", Value.vstr "X")]) "id" = none ∧
    (demoSchema.filter (fun s => s.required)).map (fun s => s.name) = ["id"] := by decide

/-- C7: the claim is false on the code. Upserting the key-1 record into
the dataset whose rows are stored as id 2 then id 1 returns with the
rows in key-sorted order id 1 then id 2: the sort_index call inside
the loop reorders the rows and the finally clause does not restore the
original ordering. -/
theorem c7_counterexample :
    (add_or_update_records demoSchema ["id"] d2 [recZ] true).2 = none ∧
    ((add_or_update_records demoSchema ["id"] d2 [recZ] true).1.rows.map
      (fun lr => cell lr.2 "id")) = [Value.vint 1, Value.vint 2] ∧
    (d2.rows.map (fun lr => cell lr.2 "id")) = [Value.vint 2, Value.vint 1] := by decide

/-- C8: the claim is false on the code. After concatenate the receiver
dC still holds its single original row; the two-row union exists only
in the returned fresh frame. -/
theorem c8_counterexample :
    (concatenate demoSchema ["id"] "nm" dC dD false).1 = dC ∧
    (concatenate demoSchema ["id"] "nm" dC dD false).2 =
      Except.ok (concatFrames dC dD) ∧
    (concatFrames dC dD).rows.length = 2 ∧
    dC.rows.length = 1 ∧
    dC ≠ concatFrames dC dD := by decide

/-- C2 amended: when validate raises a dataset-named validation error,
the error aggregates every field-level failure of the FIRST failing
row only: every record before that row validates, the reported error
list is that row's, and every failing field of that row appears in it.
Rows after the first failing one are not reported. -/
theorem c2_amended_first_row (m : Model) (ic : List String) (name name2 : String)
    (f : Frame) (e : List (String × String))
    (h : validate m ic name f = Except.error (VErr.validation name2 e)) :
    name2 = name ∧
    ∃ pre r post, toRecords f = pre ++ r :: post ∧
      (∀ r2, r2 ∈ pre → ∃ v, validate_row m r2 = Except.ok v) ∧
      validate_row m r = Except.error e ∧
      (∀ s msg, s ∈ m → fieldResult (validate_before m r) s = Except.error msg →
        (s.name, msg) ∈ e) := by
  cases hvr : validateRows m (toRecords f) with
  | error e2 =>
    have h2 : VErr.validation name e2 = VErr.validation name2 e := by
      unfold validate at h
      rw [hvr] at h
      exact Except.error.inj h
    have hname : name = name2 := by
      cases h2
      rfl
    have he : e2 = e := by
      cases h2
      rfl
    subst he
    rcases validateRows_error m (toRecords f) e2 hvr with ⟨pre, r, post, h1, hpre, hr⟩
    exact ⟨hname.symm, pre, r, post, h1, hpre, hr,
      fun s msg hs hfr => validate_row_error_mem m r e2 hr s msg hs hfr⟩
  | ok vs =>
    exfalso
    unfold validate at h
    rw [hvr] at h
    dsimp only at h
    split at h
    · exact VErr.noConfusion (Except.error.inj h)
    · exact Except.noConfusion h

/-- C2 amended witness: the theorem applied to the dataset dBad whose
two rows both fail validation. -/
theorem c2_amended_first_row_witness :
    ("base tabular" : String) = "base tabular" ∧
    ∃ pre r post, toRecords dBad = pre ++ r :: post ∧
      (∀ r2, r2 ∈ pre → ∃ v, validate_row demoSchema r2 = Except.ok v) ∧
      validate_row demoSchema r = Except.error [("id", "int_type")] ∧
      (∀ s msg, s ∈ demoSchema →
        fieldResult (validate_before demoSchema r) s = Except.error msg →
        (s.name, msg) ∈ [("id", "int_type")]) :=
  c2_amended_first_row demoSchema ["id"] "base tabular" "base tabular" dBad
    [("id", "int_type")] (by decide)

/-- C5 amended: pre-validation normalization touches only fields
present in the raw row: a present missing-valued optional field is
removed, a present missing-valued non-optional field is set to null,
a present non-missing value is kept, and a field absent from the raw
row stays absent; a required field absent from the raw row then fails
field validation with a missing-field error (raised by the field
validation step, not via an explicit null assignment). -/
theorem c5_amended_normalization (m : Model) (data : Row) (k : String) (v : Value)
    (hnd : (data.map Prod.fst).Nodup) :
    (List.lookup k data = none → dget (validate_before m data) k = none) ∧
    (List.lookup k data = some v → pdIsna v = false →
      dget (validate_before m data) k = some v) ∧
    (List.lookup k data = some v → pdIsna v = true → k ∈ optional_fields m →
      dget (validate_before m data) k = none) ∧
    (List.lookup k data = some v → pdIsna v = true → k ∉ optional_fields m →
      dget (validate_before m data) k = some Value.vnone) ∧
    (∀ s, s ∈ m → s.required = true → List.lookup s.name data = none →
      ∃ es, validate_row m data = Except.error es ∧ (s.name, "missing") ∈ es) := by
  refine ⟨?_, ?_, ?_, ?_, ?_⟩
  · intro hL
    rw [validate_before_lookup m data k hnd, hL]
  · intro hL hiv
    rw [validate_before_lookup m data k hnd, hL]
    simp [hiv]
  · intro hL hiv hk
    have hc : (optional_fields m).contains k = true := (contains_iff _ _).mpr hk
    rw [validate_before_lookup m data k hnd, hL]
    simp [hiv, hc, hk]
  · intro hL hiv hk
    have hc : (optional_fields m).contains k = false := by
      rw [← Bool.not_eq_true, contains_iff]
      exact hk
    rw [validate_before_lookup m data k hnd, hL]
    simp [hiv, hc, hk]
  · intro s hs hreq hL
    have habs : dget (validate_before m data) s.name = none := by
      rw [validate_before_lookup m data s.name hnd, hL]
    have hfr : fieldResult (validate_before m data) s = Except.error "missing" := by
      unfold fieldResult
      rw [habs, hreq]
      simp
    have hmemerr : (s.name, "missing") ∈ field_errors m (validate_before m data) :=
      List.mem_filterMap.mpr ⟨s, hs, by rw [hfr]⟩
    have hne : field_errors m (validate_before m data) ≠ [] :=
      List.ne_nil_of_mem hmemerr
    have hie : (field_errors m (validate_before m data)).isEmpty = false := by
      rw [← Bool.not_eq_true, List.isEmpty_iff]
      exact hne
    refine ⟨field_errors m (validate_before m data), ?_, hmemerr⟩
    show validateFields m (validate_before m data) = _
    unfold validateFields
    rw [hie]
    simp

/-- C5 amended witness: the theorem applied to the raw row carrying
only a null name under the demo schema: the optional name is removed
and the absent required id yields a missing-field error. -/
theorem c5_amended_normalization_witness :
    dget (validate_before demoSchema [("name", Value.vnone)]) "name" = none ∧
    (∃ es, validate_row demoSchema [("name", Value.vnone)] = Except.error es ∧
      ("id", "missing") ∈ es) := by
  have h := c5_amended_normalization demoSchema [("name", Value.vnone)] "name" Value.vnone
    (by decide)
  refine ⟨h.2.2.1 (by decide) (by decide) (by decide), ?_⟩
  refine h.2.2.2.2 { name := "id", required := true, default := Value.vnone, check := intCheck }
    ?_ rfl (by decide)
  show _ ∈ demoSchema
  unfold demoSchema
  exact List.mem_cons_self _ _

theorem resetIndexF_labels (ic : List String) (f : Frame) :
    (resetIndexF ic f).rows.map Prod.fst =
      (List.range (resetIndexF ic f).rows.length).map
        (fun j => [Value.vint (Int.ofNat j)]) := by
  show (relabel _).map Prod.fst = (List.range (relabel _).length).map _
  rw [relabel_map_fst, relabel_length]

theorem add_or_update_records_eq (m : Model) (ic : List String) (self : Frame)
    (records : List Row) (doValidate : Bool)
    (hguard : ic.filter (fun c => !self.cols.contains c) = []) :
    add_or_update_records m ic self records doValidate =
      (resetIndexF ic
        { cols := (setIndexF self ic).cols,
          rows := (recLoop m ic (self.cols.filter (fun c => !ic.contains c)) doValidate
            records (setIndexF self ic).rows).1 },
       (recLoop m ic (self.cols.filter (fun c => !ic.contains c)) doValidate
         records (setIndexF self ic).rows).2) := by
  unfold add_or_update_records
  rw [if_neg (fun hcond => hcond hguard)]

/-- C6: get_diff of a dataset with itself is the empty slice (columns
preserved, no rows), and get_diff against an empty dataset of the same
schema returns the dataset itself, whenever the nonempty index key
columns are carried by the dataset and declared in the schema. -/
theorem c6_get_diff_identities (m : Model) (d : Frame) (ic : List String)
    (hne : ic ≠ [])
    (hsub : ∀ c, c ∈ ic → c ∈ d.cols)
    (hm : ∀ c, c ∈ ic → c ∈ m.map (fun s => s.name)) :
    get_diff d d ic = Except.ok { cols := d.cols, rows := [] } ∧
    get_diff d (emptyFrame m) ic = Except.ok d := by
  have hfild : ic.filter (fun c => !d.cols.contains c) = [] := by
    rw [List.filter_eq_nil_iff]
    intro c hc
    simp [hsub c hc]
  have hfilm : ic.filter (fun c => !(emptyFrame m).cols.contains c) = [] := by
    rw [List.filter_eq_nil_iff]
    intro c hc
    simp [hm c hc, emptyFrame]
  have hicne : ic.isEmpty = false := by
    rw [← Bool.not_eq_true, List.isEmpty_iff]
    exact hne
  constructor
  · unfold get_diff
    rw [if_neg (fun hcond => hcond hfild), if_neg (fun hcond => hcond hfild),
      if_neg (by simp [hicne])]
    have hrows : d.rows.filter (fun lr =>
        !d.rows.any (fun lr2 => projEq ic lr.2 lr2.2)) = [] := by
      rw [List.filter_eq_nil_iff]
      intro lr hlr
      have hany : d.rows.any (fun lr2 => projEq ic lr.2 lr2.2) = true :=
        List.any_eq_true.mpr ⟨lr, hlr, projEq_refl ic lr.2⟩
      simp [hany]
    rw [hrows]
  · unfold get_diff
    rw [if_neg (fun hcond => hcond hfild), if_neg (fun hcond => hcond hfilm),
      if_neg (by simp [hicne])]
    have hrows : d.rows.filter (fun lr =>
        !(emptyFrame m).rows.any (fun lr2 => projEq ic lr.2 lr2.2)) = d.rows := by
      rw [List.filter_eq_self]
      intro lr hlr
      rfl
    rw [hrows]

/-- C6 witness: the theorem applied to the concrete dataset d2 with the
demo schema and index key id. -/
theorem c6_get_diff_identities_witness :
    get_diff d2 d2 ["id"] = Except.ok { cols := d2.cols, rows := [] } ∧
    get_diff d2 (emptyFrame demoSchema) ["id"] = Except.ok d2 :=
  c6_get_diff_identities demoSchema d2 ["id"] (by decide)
    (by intro c hc; simp at hc; simp [hc, d2]) (by intro c hc; simp at hc; simp [hc, demoSchema])

/-- C9: load fails with the wrong-separator error exactly when the
parsed frame has a single column whose header contains a comma; any
frame with more columns, or a single comma-free header, passes the
corruption check (its load result is never that error). -/
theorem c9_load_separator_heuristic (m : Model) (ic : List String) (name : String)
    (parsed : Frame) (doValidate : Bool) :
    load m ic name parsed doValidate = Except.error LoadErr.csvSuspected ↔
      (parsed.cols.length = 1 ∧ ',' ∈ (parsed.cols.headD "").data) := by
  unfold load
  by_cases hc : parsed.cols.length = 1 ∧ 1 < (pySplit ',' (parsed.cols.headD "").data).length
  · rw [if_pos hc]
    constructor
    · intro _
      refine ⟨hc.1, ?_⟩
      have h2 := hc.2
      rw [pySplit_length] at h2
      have h3 : 0 < ((parsed.cols.headD "").data).count ',' := by omega
      exact List.count_pos_iff.mp h3
    · intro _
      rfl
  · rw [if_neg hc]
    constructor
    · intro h
      exfalso
      split at h
      · cases hval : validate m ic name parsed with
        | ok g =>
          rw [hval] at h
          simp at h
        | error e =>
          rw [hval] at h
          simp at h
      · exact Except.noConfusion h
    · intro h2
      exfalso
      apply hc
      refine ⟨h2.1, ?_⟩
      rw [pySplit_length]
      have h3 : 0 < ((parsed.cols.headD "").data).count ',' :=
        List.count_pos_iff.mpr h2.2
      omega

/-- C10: validate never writes to its receiver: the state component of
the state-passing form is the unchanged receiver for every frame, and
a successful validation returns a freshly rebuilt frame whose columns
are the schema fields and whose index is a fresh range index. -/
theorem c10_validate_no_mutation (m : Model) (ic : List String) (name : String)
    (f g : Frame) (h : validate m ic name f = Except.ok g) :
    (∀ f2, (validateSt m ic name f2).1 = f2) ∧
    g.cols = m.map (fun s => s.name) ∧
    g.rows.map Prod.fst =
      (List.range g.rows.length).map (fun j => [Value.vint (Int.ofNat j)]) := by
  have hg : ∃ vs, validateRows m (toRecords f) = Except.ok vs ∧ g = frameOfRecords m vs := by
    cases hvr : validateRows m (toRecords f) with
    | error e =>
      unfold validate at h
      rw [hvr] at h
      exact Except.noConfusion h
    | ok vs =>
      unfold validate at h
      rw [hvr] at h
      dsimp only at h
      split at h
      · exact Except.noConfusion h
      · exact ⟨vs, rfl, (Except.ok.inj h).symm⟩
  rcases hg with ⟨vs, hvr, hgeq⟩
  subst hgeq
  refine ⟨fun f2 => rfl, rfl, ?_⟩
  show (relabel vs).map Prod.fst = (List.range (relabel vs).length).map _
  rw [relabel_map_fst, relabel_length]

/-- C10 witness: the theorem applied to the dataset dStr, whose
validated form gStr differs from it (string id coerced to int) while
the receiver is untouched. -/
theorem c10_validate_no_mutation_witness :
    gStr.cols = demoSchema.map (fun s => s.name) ∧
    gStr.rows.map Prod.fst =
      (List.range gStr.rows.length).map (fun j => [Value.vint (Int.ofNat j)]) :=
  (c10_validate_no_mutation demoSchema ["id"] "nm" dStr gStr (by decide)).2

/-- C8 amended: concatenate does not mutate the receiver: the receiver
state after the call is unchanged for every pair of frames, and the
returned (unvalidated) result is a fresh frame holding the rows of
self followed by the rows of other under a fresh range index. -/
theorem c8_amended_concatenate (m : Model) (ic : List String) (name : String)
    (self other : Frame) (doValidate : Bool) :
    (concatenate m ic name self other doValidate).1 = self ∧
    (concatenate m ic name self other false).2 = Except.ok (concatFrames self other) ∧
    (concatFrames self other).rows.map Prod.snd =
      self.rows.map Prod.snd ++ other.rows.map Prod.snd ∧
    (concatFrames self other).rows.length = self.rows.length + other.rows.length := by
  refine ⟨rfl, rfl, ?_, ?_⟩
  · show (relabel _).map Prod.snd = _
    rw [relabel_map_snd]
  · show (relabel _).length = _
    rw [relabel_length, List.length_append, List.length_map, List.length_map]

/-- C7 amended: on every exit path of add_or_update_records -- success
or error inside the loop -- the finally clause releases the temporary
key-indexed view: the index key columns come back as ordinary leading
columns and the rows carry a fresh positional range index. The
original row ordering, however, is not restored (see the
counterexample): rows may be left in key-sorted order. -/
theorem c7_amended_reset_guarantee (m : Model) (ic : List String) (self : Frame)
    (records : List Row) (doValidate : Bool)
    (hsub : ∀ c, c ∈ ic → c ∈ self.cols) :
    (add_or_update_records m ic self records doValidate).1.cols =
      ic ++ self.cols.filter (fun c => !ic.contains c) ∧
    (add_or_update_records m ic self records doValidate).1.rows.map Prod.fst =
      (List.range (add_or_update_records m ic self records doValidate).1.rows.length).map
        (fun j => [Value.vint (Int.ofNat j)]) := by
  have hguard : ic.filter (fun c => !self.cols.contains c) = [] := by
    rw [List.filter_eq_nil_iff]
    intro c hc
    simp [hsub c hc]
  rw [add_or_update_records_eq m ic self records doValidate hguard]
  exact ⟨rfl, resetIndexF_labels ic _⟩

/-- C7 amended witness: the theorem applied to the concrete upsert on
d2 whose row order is changed by the operation. -/
theorem c7_amended_reset_guarantee_witness :
    (add_or_update_records demoSchema ["id"] d2 [recZ] true).1.cols =
      ["id"] ++ d2.cols.filter (fun c => !(List.contains ["id"] c)) ∧
    (add_or_update_records demoSchema ["id"] d2 [recZ] true).1.rows.map Prod.fst =
      (List.range
        (add_or_update_records demoSchema ["id"] d2 [recZ] true).1.rows.length).map
        (fun j => [Value.vint (Int.ofNat j)]) :=
  c7_amended_reset_guarantee demoSchema ["id"] d2 [recZ] true
    (by intro c hc; simp at hc; simp [hc, d2])

/-- C3 amended: equals is strict on the column multiset and matches
rows by index label, ignoring only the storage order of labels and
columns: it returns true exactly when the column multisets agree, the
label multisets agree, and the two rows at each shared label agree on
every column. Rows are NOT matched by position, so equal row multisets
under a fresh positional index can compare unequal (see the
counterexample). -/
theorem c3_amended_equals (a b : Frame)
    (hna : (a.rows.map Prod.fst).Nodup) (hnb : (b.rows.map Prod.fst).Nodup) :
    equals a b = true ↔
      (a.cols.Perm b.cols ∧
       (a.rows.map Prod.fst).Perm (b.rows.map Prod.fst) ∧
       ∀ l r r2, (l, r) ∈ a.rows → (l, r2) ∈ b.rows →
         ∀ c, c ∈ a.cols → cell r c = cell r2 c) := by
  unfold equals
  rw [Bool.and_eq_true, Bool.and_eq_true, decide_eq_true_iff, decide_eq_true_iff,
    List.all_eq_true]
  constructor
  · rintro ⟨⟨hcols, hlbls⟩, hall⟩
    refine ⟨hcols, hlbls, ?_⟩
    intro l r r2 hra hrb c hc
    have h1 := hall (l, r) hra
    cases hf : b.rows.find? (fun lr2 => lr2.1 == (l, r).1) with
    | none =>
      rw [hf] at h1
      simp at h1
    | some lr2 =>
      rw [hf] at h1
      have hmem2 : lr2 ∈ b.rows := List.mem_of_find?_eq_some hf
      have hl2 : lr2.1 = l := by
        have hpred := List.find?_some hf
        simpa using hpred
      have heq : lr2 = (l, r2) := by
        refine List.inj_on_of_nodup_map hnb hmem2 hrb ?_
        rw [hl2]
      have h2 := List.all_eq_true.mp h1 c hc
      rw [heq] at h2
      simpa using h2
  · rintro ⟨hcols, hlbls, hcells⟩
    refine ⟨⟨hcols, hlbls⟩, ?_⟩
    intro lr hlr
    obtain ⟨l, r⟩ := lr
    have hlmem : l ∈ b.rows.map Prod.fst :=
      hlbls.mem_iff.mp (List.mem_map_of_mem Prod.fst hlr)
    rcases List.mem_map.mp hlmem with ⟨lr2, hlr2, hfst⟩
    cases hf : b.rows.find? (fun x => x.1 == (l, r).1) with
    | none =>
      exfalso
      have h3 := List.find?_eq_none.mp hf lr2 hlr2
      apply h3
      simp [hfst]
    | some lr3 =>
      have hmem3 : lr3 ∈ b.rows := List.mem_of_find?_eq_some hf
      have hl3 : lr3.1 = l := by
        have hpred := List.find?_some hf
        simpa using hpred
      show a.cols.all (fun c => cell r c == cell lr3.2 c) = true
      rw [List.all_eq_true]
      intro c hc
      have hmem3b : (l, lr3.2) ∈ b.rows := by
        rw [← hl3]
        exact hmem3
      have h4 : cell r c = cell lr3.2 c := hcells l r lr3.2 hlr hmem3b c hc
      simp [h4]

/-- C3 amended witness: the theorem applied to the concrete frame dA
against itself. -/
theorem c3_amended_equals_witness : equals dA dA = true := by
  refine (c3_amended_equals dA dA (by decide) (by decide)).mpr
    ⟨List.Perm.refl _, List.Perm.refl _, ?_⟩
  intro l r r2 hr hr2 c hc
  simp [dA] at hr hr2
  rcases hr with ⟨h1, h2⟩ | ⟨h1, h2⟩ <;> rcases hr2 with ⟨h3, h4⟩ | ⟨h3, h4⟩
  · rw [h2, h4]
  · exfalso
    rw [h1] at h3
    simp at h3
  · exfalso
    rw [h1] at h3
    simp at h3
  · rw [h2, h4]

theorem mem_ne_of_nodup_two_le {α : Type} (l : List α) (x : α) (hnd : l.Nodup)
    (hx : x ∈ l) (hlen : 2 ≤ l.length) : ∃ y, y ∈ l ∧ y ≠ x := by
  match l, hnd, hx, hlen with
  | a :: b :: t, hnd, hx, _ =>
    by_cases hax : a = x
    · have hne : a ≠ b := by
        intro h
        exact (List.nodup_cons.mp hnd).1 (by rw [h]; exact List.mem_cons_self b t)
      refine ⟨b, by simp, ?_⟩
      rw [← hax]
      exact fun h => hne h.symm
    · exact ⟨a, by simp, hax⟩

theorem two_le_length_of_mem_mem_ne {α : Type} (l : List α) (x y : α)
    (hx : x ∈ l) (hy : y ∈ l) (hxy : x ≠ y) : 2 ≤ l.length := by
  cases l with
  | nil => simp at hx
  | cons a t =>
    simp only [List.length_cons]
    rcases List.mem_cons.mp hx with h1 | h1
    · rcases List.mem_cons.mp hy with h2 | h2
      · exact absurd (h1.trans h2.symm) hxy
      · have h3 : 0 < t.length := List.length_pos_of_mem h2
        omega
    · have h3 : 0 < t.length := List.length_pos_of_mem h1
      omega

theorem countP_relabel (rs : List Row) (p : Row → Bool) :
    (relabel rs).countP (fun x => p x.2) = rs.countP p := by
  conv_rhs => rw [← relabel_map_snd rs]
  rw [List.countP_map]
  rfl

theorem find_duplicates_mem (F : Frame) (ic : List String) (hnd : F.rows.Nodup)
    (lr : Lbl × Row) :
    lr ∈ (find_duplicates F ic).rows ↔
      (lr ∈ F.rows ∧ ∃ lr2, lr2 ∈ F.rows ∧ lr2 ≠ lr ∧ projEq ic lr.2 lr2.2 = true) := by
  unfold find_duplicates
  rw [List.mem_filter]
  constructor
  · rintro ⟨hmem, hp⟩
    refine ⟨hmem, ?_⟩
    have h2 : 2 ≤ F.rows.countP (fun lr2 => projEq ic lr.2 lr2.2) := of_decide_eq_true hp
    rw [List.countP_eq_length_filter] at h2
    have hmemf : lr ∈ F.rows.filter (fun lr2 => projEq ic lr.2 lr2.2) :=
      List.mem_filter.mpr ⟨hmem, projEq_refl ic lr.2⟩
    rcases mem_ne_of_nodup_two_le _ lr (hnd.filter _) hmemf h2 with ⟨y, hy, hyne⟩
    rcases List.mem_filter.mp hy with ⟨hy1, hy2⟩
    exact ⟨y, hy1, hyne, hy2⟩
  · rintro ⟨hmem, lr2, hmem2, hne, hproj⟩
    refine ⟨hmem, ?_⟩
    apply decide_eq_true
    rw [List.countP_eq_length_filter]
    refine two_le_length_of_mem_mem_ne _ lr lr2 ?_ ?_ (Ne.symm hne)
    · exact List.mem_filter.mpr ⟨hmem, projEq_refl ic lr.2⟩
    · exact List.mem_filter.mpr ⟨hmem2, hproj⟩

/-- C4: when every record of the dataset passes per-row schema
validation, validate fails with the duplicate-key error exactly when
some index-key projection occurs in at least two of the validated
records, and the frame embedded in the error lists every member of
every duplicate group: a validated row is listed iff some OTHER
validated row shares its index-key projection. -/
theorem c4_duplicate_key (m : Model) (ic : List String) (name : String)
    (f : Frame) (rs : List Row)
    (hv : validateRows m (toRecords f) = Except.ok rs) :
    ((∃ d, validate m ic name f = Except.error (VErr.duplicate name d)) ↔
      ∃ r, r ∈ rs ∧ 2 ≤ rs.countP (fun r2 => projEq ic r r2)) ∧
    (∀ d, validate m ic name f = Except.error (VErr.duplicate name d) →
      d.cols = m.map (fun s => s.name) ∧
      ∀ lr, lr ∈ d.rows ↔
        (lr ∈ (frameOfRecords m rs).rows ∧
         ∃ lr2, lr2 ∈ (frameOfRecords m rs).rows ∧ lr2 ≠ lr ∧
           projEq ic lr.2 lr2.2 = true)) := by
  have hval : validate m ic name f =
      (if (find_duplicates (frameOfRecords m rs) ic).rows.length > 0 then
        Except.error (VErr.duplicate name (find_duplicates (frameOfRecords m rs) ic))
      else Except.ok (frameOfRecords m rs)) := by
    unfold validate
    rw [hv]
  have hnodup_rows : (frameOfRecords m rs).rows.Nodup :=
    List.Nodup.of_map Prod.fst (relabel_labels_nodup rs)
  constructor
  · by_cases hlen : (find_duplicates (frameOfRecords m rs) ic).rows.length > 0
    · rw [if_pos hlen] at hval
      constructor
      · intro _
        have hne2 : (find_duplicates (frameOfRecords m rs) ic).rows ≠ [] := by
          intro h0
          rw [h0] at hlen
          simp at hlen
        rcases List.exists_mem_of_ne_nil _ hne2 with ⟨lr, hlr⟩
        rw [find_duplicates_mem _ _ hnodup_rows lr] at hlr
        rcases hlr with ⟨hmem, lr2, hmem2, hne, hproj⟩
        refine ⟨lr.2, ?_, ?_⟩
        · have h5 := List.mem_map_of_mem Prod.snd hmem
          rw [show (frameOfRecords m rs).rows = relabel rs from rfl, relabel_map_snd] at h5
          exact h5
        · have hcnt : 2 ≤ (relabel rs).countP (fun x => projEq ic lr.2 x.2) := by
            rw [List.countP_eq_length_filter]
            refine two_le_length_of_mem_mem_ne _ lr lr2 ?_ ?_ (Ne.symm hne)
            · exact List.mem_filter.mpr ⟨hmem, projEq_refl ic lr.2⟩
            · exact List.mem_filter.mpr ⟨hmem2, hproj⟩
          rw [countP_relabel] at hcnt
          exact hcnt
      · intro _
        exact ⟨find_duplicates (frameOfRecords m rs) ic, hval⟩
    · rw [if_neg hlen] at hval
      constructor
      · rintro ⟨d, hd⟩
        rw [hval] at hd
        exact Except.noConfusion hd
      · rintro ⟨r, hr, hcnt⟩
        exfalso
        apply hlen
        have hr2 : r ∈ (relabel rs).map Prod.snd := by
          rw [relabel_map_snd]
          exact hr
        rcases List.mem_map.mp hr2 with ⟨lr, hlr, hsnd⟩
        have hcnt2 : 2 ≤ (relabel rs).countP (fun x => projEq ic lr.2 x.2) := by
          rw [countP_relabel, hsnd]
          exact hcnt
        have hmemdup : lr ∈ (find_duplicates (frameOfRecords m rs) ic).rows :=
          List.mem_filter.mpr ⟨hlr, decide_eq_true hcnt2⟩
        exact List.length_pos_of_mem hmemdup
  · intro d hd
    by_cases hlen : (find_duplicates (frameOfRecords m rs) ic).rows.length > 0
    · rw [if_pos hlen] at hval
      rw [hval] at hd
      have hdd : find_duplicates (frameOfRecords m rs) ic = d :=
        (VErr.duplicate.inj (Except.error.inj hd)).2
      subst hdd
      constructor
      · rfl
      · intro lr
        exact find_duplicates_mem _ _ hnodup_rows lr
    · rw [if_neg hlen] at hval
      rw [hval] at hd
      exact Except.noConfusion hd

/-- C4 witness: the theorem applied to the dataset dDup whose two valid
rows share the index key id 1. -/
theorem c4_duplicate_key_witness :
    ∃ d, validate demoSchema ["id"] "nm" dDup = Except.error (VErr.duplicate "nm" d) :=
  (c4_duplicate_key demoSchema ["id"] "nm" dDup [dupA, dupB] (by decide)).1.mpr
    ⟨dupA, by decide, by decide⟩

end Nipoppy
